import Mathlib

/-!
Verification of the SEO topic-generator pipeline (`seo.py`, `seonew.py`,
`test.py`).  The repository consists of three near-identical scripts; the
shared core is `clean_text`, `fetch_and_score_articles`,
`suggest_seo_topics` and the trending-keyword extraction in `main`.

The embedding below is a shallow model of that Python code over `List Char`
and `String`, restricted to ASCII character classes (the scripts' regexes
use the ASCII classes `a` to `z` and `A` to `Z`; Python's Unicode word
characters beyond ASCII are out of the modelled alphabet).  Machine-level
details the claims do not touch (HTML rendering, SMTP, network fetching)
are left out, exactly as the spec marks them external collaborators.

Python's `sorted`/`list.sort` is a stable sort; a stable sort of a list
with respect to a total preorder has a uniquely determined output, so it
is modelled by `List.insertionSort`, which Mathlib proves stable
(`List.pair_sublist_insertionSort`).
-/

namespace SeoGen

/-! ### ASCII character model -/

/-- ASCII upper-case letter, the regex class from `A` to `Z`. -/
def isAsciiUpper (c : Char) : Bool := decide (65 ≤ c.toNat ∧ c.toNat ≤ 90)

/-- ASCII lower-case letter, the regex class from `a` to `z`. -/
def isAsciiLower (c : Char) : Bool := decide (97 ≤ c.toNat ∧ c.toNat ≤ 122)

/-- ASCII letter, the regex class `[a-zA-Z]` used by `clean_text`. -/
def isAsciiAlpha (c : Char) : Bool := isAsciiUpper c || isAsciiLower c

/-- ASCII digit. -/
def isAsciiDigit (c : Char) : Bool := decide (48 ≤ c.toNat ∧ c.toNat ≤ 57)

/-- Regex word character (the class behind the boundary assertion in
`clean_text`): letter, digit or underscore, restricted to ASCII. -/
def isWordChar (c : Char) : Bool := isAsciiAlpha c || isAsciiDigit c || c == '_'

/-- Model of Python `str.lower` on one character (ASCII range). -/
def pyLowerChar (c : Char) : Char :=
  if isAsciiUpper c then Char.ofNat (c.toNat + 32) else c

/-- Model of Python `str.lower` on a character list. -/
def pyLower (l : List Char) : List Char := l.map pyLowerChar

/-! ### Maximal runs

`splitRuns p l` is the list of maximal nonempty runs of characters
satisfying `p` inside `l`.  With `p := isWordChar` this is the word
decomposition induced by the regex boundary assertion; with
`p := not whitespace` it is Python's `str.split()`.  Implemented with
explicit fuel so that it is structurally recursive (hence computable by
kernel reduction); `splitRuns` instantiates the fuel with the list
length, which the lemmas show is always enough. -/

def splitRunsF (p : Char → Bool) : Nat → List Char → List (List Char)
  | _, [] => []
  | 0, _ :: _ => []
  | fuel + 1, c :: cs =>
    if p c then (c :: cs.takeWhile p) :: splitRunsF p fuel (cs.dropWhile p)
    else splitRunsF p fuel cs

/-- Maximal nonempty runs of characters satisfying `p`. -/
def splitRuns (p : Char → Bool) (l : List Char) : List (List Char) :=
  splitRunsF p l.length l

/-- Model of `clean_text` from all three scripts:
`re.findall` of "word-boundary, three or more ASCII letters,
word-boundary" over the lower-cased text.  A regex match of that pattern
is exactly a maximal word-character run that consists solely of letters
and has length at least 3 (a letter run adjacent to a digit or
underscore has no boundary next to it and is not matched, not even
partially). -/
def cleanText (s : String) : List String :=
  ((splitRuns isWordChar (pyLower s.data)).filter
      (fun r => r.all isAsciiAlpha && decide (3 ≤ r.length))).map
    (fun r => String.mk r)

/-- Model of Python `str.split()` (split on whitespace runs, dropping
empty pieces): the maximal runs of non-whitespace characters. -/
def wsSplit (s : String) : List String :=
  (splitRuns (fun c => !c.isWhitespace) s.data).map (fun r => String.mk r)

/-- Word count of a sentence, `len(sent.split())` in the scripts. -/
def wordCount (s : String) : Nat := (wsSplit s).length

/-! ### Data model: feed entries and scored articles -/

/-- A feed entry as delivered by the external feed parser.
`publishedParsed = none` models a publish date that fails to parse
(`entry.published_parsed` missing or `datetime(...)` raising);
`summaryOpt = none` models an absent summary.  Timestamps are modelled
as integers (any linearly ordered time type works). -/
structure Entry where
  title : String
  link : String
  summaryOpt : Option String
  publishedParsed : Option Int
deriving DecidableEq

/-- The article record built by `fetch_and_score_articles`. -/
structure Article where
  title : String
  link : String
  published : Int
  summary : String
  keywords : List String
  score : Nat
deriving DecidableEq

/-- `NUM_ARTICLES_TO_SCAN` from the scripts' configuration. -/
def NUM_ARTICLES_TO_SCAN : Nat := 50

/-- `NUM_SUGGESTIONS` from the scripts' configuration. -/
def NUM_SUGGESTIONS : Nat := 15

/-- The per-entry body of the loop in `fetch_and_score_articles`:
build the article record for one feed entry.  `stop` is `STOPWORDS`,
`companyKeywords` the scraped reference set, `now` the current
processing time substituted when the publish date fails to parse. -/
def scoreEntry (stop companyKeywords : Finset String) (now : Int) (e : Entry) :
    Article :=
  let text := e.title ++ " " ++ e.summaryOpt.getD ""
  let keywords := (cleanText text).filter (fun w => w ∉ stop)
  { title := e.title
    link := e.link
    published := e.publishedParsed.getD now
    summary := e.summaryOpt.getD "No summary available."
    keywords := keywords
    score := (keywords.toFinset ∩ companyKeywords).card }

/-- The sort key order of `sorted(articles, key=lambda x: (score,
published), reverse=True)`: `a` may come before `b` iff `b`'s key is not
larger, i.e. descending lexicographic on (score, published). -/
def rankRel (a b : Article) : Prop :=
  b.score < a.score ∨ (b.score = a.score ∧ b.published ≤ a.published)

instance : DecidableRel rankRel := fun a b => by
  unfold rankRel; infer_instance

instance : IsTotal Article rankRel := by
  constructor
  intro a b
  unfold rankRel
  omega

instance : IsTrans Article rankRel := by
  constructor
  intro a b c hab hbc
  unfold rankRel at *
  omega

/-- Model of the final `sorted(...)` of `fetch_and_score_articles`:
the stable descending sort on (score, published). -/
def rankArticles (l : List Article) : List Article := l.insertionSort rankRel

/-- `fetch_and_score_articles` on an already-fetched flat entry list
(the feed loop concatenates entries feed by feed). -/
def fetchAndScoreArticles (stop ref : Finset String) (now : Int)
    (entries : List Entry) : List Article :=
  rankArticles (entries.map (scoreEntry stop ref now))

/-! ### Topic idea generation (`suggest_seo_topics`, `seonew.py`)

`seonew.py` carries the full policy the spec describes: each idea is a
pair of idea text and source link, a non-matching title gets templated
rewrites, and deduplication keeps the first-seen link and a frequency
count.  (`seo.py` differs only in dropping the links and the rewrite
branch, `test.py` in dropping the rewrite branch and the frequency
sort; the shared parts are identical.)  Sentence splitting
(`nltk.sent_tokenize`) is an external collaborator and is passed in as
a function `st`. -/

/-- Bool test: `needle` is a prefix of `hay` (character lists). -/
def startsWith : List Char → List Char → Bool
  | [], _ => true
  | _ :: _, [] => false
  | c :: cs, d :: ds => c == d && startsWith cs ds

/-- Bool test: `needle` occurs contiguously inside `hay`. -/
def containsChars (needle : List Char) : List Char → Bool
  | [] => needle.isEmpty
  | d :: ds => startsWith needle (d :: ds) || containsChars needle ds

/-- Model of Python `needle.lower() in hay.lower()`. -/
def containsCI (hay needle : String) : Bool :=
  containsChars (pyLower needle.data) (pyLower hay.data)

/-- `question_starters` from the scripts. -/
def questionStarters : List String :=
  ["How to", "Why", "What is", "The Ultimate Guide to",
   "A Beginner\x27s Guide to"]

/-- `list_starters` from the scripts. -/
def listStarters : List String :=
  ["Ways to", "Steps to", "Effective Strategies for", "Examples of"]

/-- The title test of `suggest_seo_topics`: some starter phrase occurs
case-insensitively in the title. -/
def titleMatches (t : String) : Bool :=
  (questionStarters ++ listStarters).any (fun s => containsCI t s)

/-- Title-based ideas for one article (`seonew.py`): the title verbatim
when it already contains a starter phrase, otherwise two templated
rewrites; all tied to the article's link. -/
def titleIdeas (a : Article) : List (String × String) :=
  if titleMatches a.title then [(a.title, a.link)]
  else [("How to " ++ a.title, a.link),
        ("The Ultimate Guide to " ++ a.title, a.link)]

/-- The length filter on summary sentences:
`8 < len(sent.split()) < 20`. -/
def sentGood (sent : String) : Bool :=
  decide (8 < wordCount sent) && decide (wordCount sent < 20)

/-- The question rewrite of a summary sentence (`seonew.py`): lower the
first character when it is upper-case, then wrap in the question
template.  (`seo.py` lowers the first character unconditionally and
capitalizes the tail of its template; Python lower-casing is the
identity on non-upper characters, so the branch condition is the only
cosmetic difference.) -/
def mkSentIdea (sent : String) : String :=
  let q : String :=
    match sent.data with
    | [] => sent
    | c :: cs => if isAsciiUpper c then String.mk (pyLowerChar c :: cs) else sent
  "Why is " ++ q ++ " important for your business?"

/-- The summary loop of `suggest_seo_topics`: walk the examined
sentences, appending one idea per sentence that passes the length
filter. -/
def summaryIdeasLoop (link : String) : List String → List (String × String)
  | [] => []
  | sent :: rest =>
    if sentGood sent then
      (mkSentIdea sent, link) :: summaryIdeasLoop link rest
    else summaryIdeasLoop link rest

/-- Summary-based ideas for one article: the loop applied to
`sent_tokenize(summary)[:2]`. -/
def summaryIdeas (st : String → List String) (a : Article) :
    List (String × String) :=
  summaryIdeasLoop a.link ((st a.summary).take 2)

/-- The idea-collection phase of `suggest_seo_topics`: over the top
`NUM_ARTICLES_TO_SCAN` articles, title ideas then summary ideas, in
article order. -/
def genIdeas (st : String → List String) (articles : List Article) :
    List (String × String) :=
  (articles.take NUM_ARTICLES_TO_SCAN).flatMap
    (fun a => titleIdeas a ++ summaryIdeas st a)

/-! ### Idea deduplication and ranking -/

/-- `Counter([idea for idea, _ in ideas])[t]`: occurrences of idea text
`t` in the generated sequence. -/
def ideaCount (ideas : List (String × String)) (t : String) : Nat :=
  (ideas.map Prod.fst).count t

/-- The dedup loop of `suggest_seo_topics` (`seonew.py`): first
occurrence of each idea text is kept, with its link and the full
sequence's count for that text.  `full` stays the whole generated
sequence while `rest` walks it. -/
def dedupLoop (full : List (String × String)) :
    List String → List (String × String) → List (String × String × Nat)
  | _, [] => []
  | seen, (i, l) :: rest =>
    if i ∈ seen then dedupLoop full seen rest
    else (i, l, ideaCount full i) :: dedupLoop full (i :: seen) rest

/-- `unique_ordered` from `suggest_seo_topics`: the dedup loop started
with an empty `seen` set. -/
def uniqueOrdered (ideas : List (String × String)) :
    List (String × String × Nat) :=
  dedupLoop ideas [] ideas

/-- Sort key order of `unique_ordered.sort(key=lambda x: x[2],
reverse=True)`: descending by count. -/
def countRel (x y : String × String × Nat) : Prop := y.2.2 ≤ x.2.2

instance : DecidableRel countRel := fun x y => by
  unfold countRel; infer_instance

instance : IsTotal (String × String × Nat) countRel := by
  constructor
  intro a b
  unfold countRel
  omega

instance : IsTrans (String × String × Nat) countRel := by
  constructor
  intro a b c hab hbc
  unfold countRel at *
  omega

/-- The deduplicated sequence stably sorted by frequency descending. -/
def rankedIdeas (ideas : List (String × String)) :
    List (String × String × Nat) :=
  (uniqueOrdered ideas).insertionSort countRel

/-- The dedup/rank/truncate stage of `suggest_seo_topics` applied to an
already-generated idea sequence: top `NUM_SUGGESTIONS` as (idea, link). -/
def suggestFromIdeas (ideas : List (String × String)) :
    List (String × String) :=
  ((rankedIdeas ideas).take NUM_SUGGESTIONS).map (fun x => (x.1, x.2.1))

/-- `suggest_seo_topics` (`seonew.py`), end to end. -/
def suggestSeoTopics (st : String → List String) (articles : List Article) :
    List (String × String) :=
  suggestFromIdeas (genIdeas st articles)

/-! ### Trending keywords (`main`) -/

/-- Distinct elements of a list in first-occurrence order (the key
order of a Python `Counter`, whose dict preserves insertion order).
Fuel-indexed to stay structurally recursive. -/
def firstDedupF : Nat → List String → List String
  | _, [] => []
  | 0, _ :: _ => []
  | fuel + 1, x :: xs => x :: firstDedupF fuel (xs.filter (fun y => !(y == x)))

/-- Distinct elements in first-occurrence order. -/
def firstDedup (l : List String) : List String := firstDedupF l.length l

/-- Sort key order of `Counter.most_common`: descending by count. -/
def cntRel (x y : String × Nat) : Prop := y.2 ≤ x.2

instance : DecidableRel cntRel := fun x y => by
  unfold cntRel; infer_instance

/-- Model of `Counter(l).most_common(k)`: pair each distinct element
(in first-occurrence order) with its count, stable-sort descending by
count, take `k`.  (CPython's `most_common` is `heapq.nlargest` over the
insertion-ordered items, which is documented and implemented as a
stable descending selection.) -/
def mostCommon (k : Nat) (l : List String) : List (String × Nat) :=
  (((firstDedup l).map (fun w => (w, l.count w))).insertionSort cntRel).take k

/-- The trending-keyword extraction in `main`: keyword lists of the top
`NUM_ARTICLES_TO_SCAN` scored articles concatenated, then the 20 most
common. -/
def trendingKeywords (articles : List Article) : List (String × Nat) :=
  mostCommon 20 ((articles.take NUM_ARTICLES_TO_SCAN).flatMap Article.keywords)

/-- A lower-cased and alphabetic token of length at least 3: the shape
`clean_text` promises for every token it returns. -/
def isCleanToken (w : String) : Bool :=
  decide (3 ≤ w.length) && w.data.all (fun c => isAsciiAlpha c && isAsciiLower c)

/-! ### Sample data (used for concrete witnesses) -/

/-- An article whose title contains the list starter "Ways to". -/
def sampleArticleMatch : Article :=
  { title := "5 Ways to Improve Your SEO", link := "lnkM", published := 0,
    summary := "s", keywords := [], score := 0 }

/-- An article whose title contains no starter phrase. -/
def sampleArticlePlain : Article :=
  { title := "Local SEO Checklist", link := "lnkP", published := 0,
    summary := "s", keywords := [], score := 0 }

/-- An idea sequence with one duplicated idea text. -/
def sampleIdeas : List (String × String) :=
  [("How to Boost Organic Traffic", "lnkA"),
   ("Keyword Research Basics", "lnkB"),
   ("How to Boost Organic Traffic", "lnkC")]

/-- Two distinct ideas with equal frequency (a ranking tie). -/
def tieIdeas : List (String × String) :=
  [("Idea A", "l1"), ("Idea B", "l2")]

/-- Articles with equal score and equal timestamp (a ranking tie). -/
def artX : Article :=
  { title := "X", link := "lx", published := 3, summary := "s",
    keywords := [], score := 2 }

/-- Second tied article. -/
def artY : Article :=
  { title := "Y", link := "ly", published := 3, summary := "s",
    keywords := [], score := 2 }

/-- Entry whose publish date parses (to time 5). -/
def entryParsedOld : Entry :=
  { title := "Old news", link := "lnk1", summaryOpt := some "s",
    publishedParsed := some 5 }

/-- Entry whose publish date fails to parse. -/
def entryBadDate : Entry :=
  { title := "Bad date", link := "lnk2", summaryOpt := some "s",
    publishedParsed := none }

/-- Sentence with eight words: excluded by the length filter. -/
def eightWordSent : String := "one two three four five six seven eight"

/-- Sentence with nine words: included by the length filter. -/
def nineWordSent : String := "one two three four five six seven eight nine"

/-- Stopword set for concrete checks. -/
def sampleStop : Finset String := {"the", "and"}

/-- Feed entry for concrete checks. -/
def sampleEntry : Entry :=
  { title := "SEO tips and tricks", link := "lnkE",
    summaryOpt := some "The best content strategy wins",
    publishedParsed := some 100 }

/-! ### Lemmas: maximal runs and the tokenizer -/

theorem all_takeWhile (p : Char → Bool) :
    ∀ l : List Char, (l.takeWhile p).all p = true := by
  intro l
  induction l with
  | nil => rfl
  | cons c cs ih =>
    rw [List.takeWhile_cons]
    by_cases h : p c
    · simp [h, ih]
    · simp [h]

theorem head?_dropWhile_false (p : Char → Bool) :
    ∀ (l : List Char) (d : Char), (l.dropWhile p).head? = some d → p d = false := by
  intro l
  induction l with
  | nil => intro d hd; simp [List.dropWhile] at hd
  | cons c cs ih =>
    intro d hd
    rw [List.dropWhile_cons] at hd
    by_cases h : p c
    · rw [if_pos h] at hd; exact ih d hd
    · rw [if_neg h] at hd
      simp only [List.head?_cons, Option.some.injEq] at hd
      subst hd
      exact Bool.eq_false_iff.mpr h

/-- Every run produced by `splitRunsF` (with enough fuel) is a nonempty
all-`p` segment of the input that is maximal: its left neighbour (if
any) and right neighbour (if any) both violate `p`. -/
theorem splitRunsF_spec (p : Char → Bool) :
    ∀ (fuel : Nat) (l : List Char), l.length ≤ fuel →
      ∀ r ∈ splitRunsF p fuel l,
        r ≠ [] ∧ r.all p = true ∧
        ∃ pre post, l = pre ++ r ++ post ∧
          (∀ d, pre.getLast? = some d → p d = false) ∧
          (∀ d, post.head? = some d → p d = false) := by
  intro fuel
  induction fuel with
  | zero =>
    intro l hl r hr
    cases l with
    | nil => simp [splitRunsF] at hr
    | cons c cs => simp at hl
  | succ n ih =>
    intro l hl r hr
    cases l with
    | nil => simp [splitRunsF] at hr
    | cons c cs =>
      rw [splitRunsF] at hr
      by_cases hp : p c
      · rw [if_pos hp] at hr
        rcases List.mem_cons.mp hr with h | h
        · subst h
          refine ⟨by simp, ?_, [], cs.dropWhile p, ?_, ?_, ?_⟩
          · simp only [List.all_cons, hp, Bool.true_and]
            exact all_takeWhile p cs
          · simp [List.takeWhile_append_dropWhile]
          · intro d hd; simp at hd
          · intro d hd; exact head?_dropWhile_false p cs d hd
        · have hlen : (cs.dropWhile p).length ≤ n := by
            have h1 : (cs.dropWhile p).length ≤ cs.length :=
              (List.dropWhile_sublist p).length_le
            have h2 : cs.length ≤ n := by simpa using hl
            omega
          obtain ⟨hne, hall, pre, post, heq, hpre, hpost⟩ :=
            ih (cs.dropWhile p) hlen r h
          refine ⟨hne, hall, (c :: cs.takeWhile p) ++ pre, post, ?_, ?_, hpost⟩
          · have hcs : cs = cs.takeWhile p ++ (pre ++ r ++ post) := by
              rw [← heq, List.takeWhile_append_dropWhile]
            conv_lhs => rw [hcs]
            simp [List.append_assoc]
          · intro d hd
            rw [List.getLast?_append] at hd
            cases hq : pre.getLast? with
            | none =>
              exfalso
              have hpre_nil : pre = [] := List.getLast?_eq_none_iff.mp hq
              subst hpre_nil
              cases r with
              | nil => exact hne rfl
              | cons r0 rs =>
                have h0 : (cs.dropWhile p).head? = some r0 := by
                  rw [heq]; rfl
                have hfalse := head?_dropWhile_false p cs r0 h0
                have htrue : p r0 = true := by
                  simp only [List.all_cons, Bool.and_eq_true] at hall
                  exact hall.1
                rw [htrue] at hfalse
                exact Bool.true_eq_false.mp hfalse
            | some d' =>
              rw [hq] at hd
              simp only [Option.or_some, Option.some.injEq] at hd
              subst hd
              exact hpre d' hq
      · rw [if_neg hp] at hr
        have hlen : cs.length ≤ n := by simpa using hl
        obtain ⟨hne, hall, pre, post, heq, hpre, hpost⟩ := ih cs hlen r hr
        refine ⟨hne, hall, c :: pre, post, by simp [heq], ?_, hpost⟩
        intro d hd
        cases pre with
        | nil =>
          simp only [List.getLast?_singleton, Option.some.injEq] at hd
          subst hd
          exact Bool.eq_false_iff.mpr hp
        | cons q qs =>
          rw [List.getLast?_cons_cons] at hd
          exact hpre d hd

/-- Specialization to `splitRuns` (fuel = length). -/
theorem splitRuns_spec (p : Char → Bool) (l : List Char) :
    ∀ r ∈ splitRuns p l,
      r ≠ [] ∧ r.all p = true ∧
      ∃ pre post, l = pre ++ r ++ post ∧
        (∀ d, pre.getLast? = some d → p d = false) ∧
        (∀ d, post.head? = some d → p d = false) :=
  splitRunsF_spec p l.length l (le_refl _)

/-- Lower-casing an upper-case ASCII letter gives a lower-case one. -/
theorem pyLowerChar_lower_of_alpha (c : Char) :
    isAsciiAlpha (pyLowerChar c) = true → isAsciiLower (pyLowerChar c) = true := by
  unfold pyLowerChar
  by_cases h : isAsciiUpper c = true
  · rw [if_pos h]
    intro _
    have hb : 65 ≤ c.toNat ∧ c.toNat ≤ 90 := of_decide_eq_true h
    obtain ⟨h1, h2⟩ := hb
    generalize hn : c.toNat = n at h1 h2
    interval_cases n <;> decide
  · rw [if_neg h]
    intro ha
    unfold isAsciiAlpha at ha
    rcases (Bool.or_eq_true _ _).mp ha with h' | h'
    · exact absurd h' h
    · exact h'

/-- Every token of `cleanText` is a lower-case alphabetic token of
length at least 3. -/
theorem cleanText_token_clean (s : String) (t : String)
    (ht : t ∈ cleanText s) : isCleanToken t = true := by
  unfold cleanText at ht
  obtain ⟨r, hr, hrt⟩ := List.mem_map.mp ht
  obtain ⟨hr_run, hr_ok⟩ := List.mem_filter.mp hr
  rw [Bool.and_eq_true, decide_eq_true_iff] at hr_ok
  obtain ⟨hall, hlen⟩ := hr_ok
  obtain ⟨hne, hword, pre, post, heq, _, _⟩ :=
    splitRuns_spec isWordChar (pyLower s.data) r hr_run
  subst hrt
  unfold isCleanToken
  rw [Bool.and_eq_true, decide_eq_true_iff]
  constructor
  · exact hlen
  · rw [List.all_eq_true] at hall ⊢
    intro c hc
    have halpha : isAsciiAlpha c = true := hall c hc
    have hmem : c ∈ pyLower s.data := by
      rw [heq]
      exact List.mem_append_left _ (List.mem_append_right _ hc)
    obtain ⟨c0, _, hc0⟩ := List.mem_map.mp hmem
    subst hc0
    rw [Bool.and_eq_true]
    exact ⟨halpha, pyLowerChar_lower_of_alpha c0 halpha⟩

/-- Every token of `cleanText` is one entire maximal word-character run
of the lower-cased input: it sits between two word boundaries. -/
theorem cleanText_token_maximal (s : String) (t : String)
    (ht : t ∈ cleanText s) :
    t.data ≠ [] ∧ t.data.all isWordChar = true ∧
    ∃ pre post, pyLower s.data = pre ++ t.data ++ post ∧
      (∀ d, pre.getLast? = some d → isWordChar d = false) ∧
      (∀ d, post.head? = some d → isWordChar d = false) := by
  unfold cleanText at ht
  obtain ⟨r, hr, hrt⟩ := List.mem_map.mp ht
  obtain ⟨hr_run, _⟩ := List.mem_filter.mp hr
  subst hrt
  exact splitRuns_spec isWordChar (pyLower s.data) r hr_run

/-! ### Lemmas: the dedup loop -/

/-- Every element the dedup loop emits carries an unseen idea text, the
link of the first occurrence of that text in the remaining input, and
the full count of that text. -/
theorem dedupLoop_mem_spec (full : List (String × String)) :
    ∀ (rest : List (String × String)) (seen : List String)
      (x : String × String × Nat), x ∈ dedupLoop full seen rest →
      x.1 ∉ seen ∧ rest.find? (fun p => p.1 == x.1) = some (x.1, x.2.1) ∧
        x.2.2 = ideaCount full x.1 := by
  intro rest
  induction rest with
  | nil => intro seen x hx; simp [dedupLoop] at hx
  | cons hd tl ih =>
    intro seen x hx
    obtain ⟨i, l⟩ := hd
    rw [dedupLoop] at hx
    by_cases hmem : i ∈ seen
    · rw [if_pos hmem] at hx
      obtain ⟨hnot, hfind, hcnt⟩ := ih seen x hx
      have hne : ¬(((i, l).1 == x.1) = true) := by
        intro hh
        rw [beq_iff_eq] at hh
        exact hnot (hh ▸ hmem)
      refine ⟨hnot, ?_, hcnt⟩
      rw [List.find?_cons_of_neg tl hne]
      exact hfind
    · rw [if_neg hmem] at hx
      rcases List.mem_cons.mp hx with rfl | hx'
      · refine ⟨hmem, ?_, rfl⟩
        rw [List.find?_cons_of_pos tl (by simp)]
      · obtain ⟨hnot, hfind, hcnt⟩ := ih (i :: seen) x hx'
        have hne : x.1 ≠ i := by
          intro hh
          exact hnot (hh ▸ List.mem_cons_self i seen)
        refine ⟨fun hs => hnot (List.mem_cons_of_mem _ hs), ?_, hcnt⟩
        have hne' : ¬(((i, l).1 == x.1) = true) := by
          intro hh
          rw [beq_iff_eq] at hh
          exact hne hh.symm
        rw [List.find?_cons_of_neg tl hne']
        exact hfind

/-- The idea texts the dedup loop emits are pairwise distinct. -/
theorem dedupLoop_fst_nodup (full : List (String × String)) :
    ∀ (rest : List (String × String)) (seen : List String),
      ((dedupLoop full seen rest).map (fun x => x.1)).Nodup := by
  intro rest
  induction rest with
  | nil => intro seen; simp [dedupLoop]
  | cons hd tl ih =>
    intro seen
    obtain ⟨i, l⟩ := hd
    rw [dedupLoop]
    by_cases hmem : i ∈ seen
    · rw [if_pos hmem]; exact ih seen
    · rw [if_neg hmem]
      simp only [List.map_cons]
      refine List.nodup_cons.mpr ⟨?_, ih (i :: seen)⟩
      intro hmem'
      obtain ⟨x, hx, hx1⟩ := List.mem_map.mp hmem'
      have hspec := (dedupLoop_mem_spec full tl (i :: seen) x hx).1
      exact hspec (hx1 ▸ List.mem_cons_self i seen)

/-- An idea text appears in the dedup output exactly when it appears in
the remaining input and has not been seen yet. -/
theorem dedupLoop_fst_complete (full : List (String × String)) :
    ∀ (rest : List (String × String)) (seen : List String) (t : String),
      t ∈ (dedupLoop full seen rest).map (fun x => x.1) ↔
        (t ∈ rest.map Prod.fst ∧ t ∉ seen) := by
  intro rest
  induction rest with
  | nil => intro seen t; simp [dedupLoop]
  | cons hd tl ih =>
    intro seen t
    obtain ⟨i, l⟩ := hd
    rw [dedupLoop]
    by_cases hmem : i ∈ seen
    · rw [if_pos hmem, ih seen t]
      simp only [List.map_cons, List.mem_cons]
      constructor
      · rintro ⟨ht, hn⟩; exact ⟨Or.inr ht, hn⟩
      · rintro ⟨ht | ht, hn⟩
        · exact absurd (ht ▸ hmem) hn
        · exact ⟨ht, hn⟩
    · rw [if_neg hmem]
      simp only [List.map_cons, List.mem_cons, ih (i :: seen) t]
      constructor
      · rintro (rfl | ⟨ht, hn⟩)
        · exact ⟨Or.inl rfl, hmem⟩
        · exact ⟨Or.inr ht, fun hs => hn (Or.inr hs)⟩
      · rintro ⟨h1, hn⟩
        by_cases hti : t = i
        · exact Or.inl hti
        · rcases h1 with rfl | ht
          · exact Or.inl rfl
          · exact Or.inr ⟨ht, fun hs => hs.elim hti hn⟩

/-! ### Lemmas: first-occurrence dedup and sort membership -/

theorem firstDedupF_subset :
    ∀ (fuel : Nat) (l : List String) (x : String),
      x ∈ firstDedupF fuel l → x ∈ l := by
  intro fuel
  induction fuel with
  | zero =>
    intro l x hx
    cases l with
    | nil => simp [firstDedupF] at hx
    | cons y ys => simp [firstDedupF] at hx
  | succ n ih =>
    intro l x hx
    cases l with
    | nil => simp [firstDedupF] at hx
    | cons y ys =>
      rw [firstDedupF] at hx
      rcases List.mem_cons.mp hx with rfl | hx'
      · exact List.mem_cons_self _ _
      · have := ih _ x hx'
        exact List.mem_cons_of_mem _ (List.mem_filter.mp this).1

/-- The first component of every entry of `mostCommon` is an element of
the counted list. -/
theorem mostCommon_fst_mem (k : Nat) (l : List String) (p : String × Nat)
    (hp : p ∈ mostCommon k l) : p.1 ∈ l := by
  unfold mostCommon at hp
  have h1 := (List.take_sublist k _).subset hp
  rw [List.mem_insertionSort] at h1
  obtain ⟨w, hw, hwp⟩ := List.mem_map.mp h1
  have : p.1 = w := by rw [← hwp]
  rw [this]
  exact firstDedupF_subset _ _ w hw

/-! ### Lemmas: small helpers -/

/-- The summary loop is the filter/map the spec describes. -/
theorem summaryIdeasLoop_eq (link : String) :
    ∀ l : List String,
      summaryIdeasLoop link l =
        (l.filter sentGood).map (fun s => (mkSentIdea s, link)) := by
  intro l
  induction l with
  | nil => rfl
  | cons s rest ih =>
    rw [summaryIdeasLoop, List.filter_cons]
    by_cases h : sentGood s
    · rw [if_pos h, if_pos h, List.map_cons, ih]
    · rw [if_neg h, if_neg h, ih]

/-- Ranking a two-article list where the first may not precede the
second swaps them. -/
theorem rankArticles_pair (a b : Article) (h : ¬rankRel a b) :
    rankArticles [a, b] = [b, a] := by
  unfold rankArticles
  simp [List.insertionSort, List.orderedInsert, h]

/-- The keywords stored on a scored article are clean tokens outside
the stopword set. -/
theorem scoreEntry_keywords_good (stop ref : Finset String) (now : Int)
    (e : Entry) (kw : String)
    (hkw : kw ∈ (scoreEntry stop ref now e).keywords) :
    isCleanToken kw = true ∧ kw ∉ stop := by
  unfold scoreEntry at hkw
  simp only at hkw
  obtain ⟨hmem, hstop⟩ := List.mem_filter.mp hkw
  exact ⟨cleanText_token_clean _ kw hmem, of_decide_eq_true hstop⟩

/-! ### Claims -/

/-- C1: for every article among the top `NUM_ARTICLES_TO_SCAN` ranked
articles, a title containing a lead phrase (case-insensitively) is
emitted verbatim as exactly one title idea tied to the article link
with no rewrite variants, while a non-matching title yields templated
rewrites that prepend a fixed phrase, tied to the same link, at least
one of which is emitted into the generated idea sequence. -/
theorem claim_C1 (st : String → List String) (articles : List Article)
    (a : Article) (ha : a ∈ articles.take NUM_ARTICLES_TO_SCAN) :
    (titleMatches a.title = true →
      titleIdeas a = [(a.title, a.link)] ∧
      (a.title, a.link) ∈ genIdeas st articles) ∧
    (titleMatches a.title = false →
      titleIdeas a = [("How to " ++ a.title, a.link),
                      ("The Ultimate Guide to " ++ a.title, a.link)] ∧
      ("How to " ++ a.title, a.link) ∈ genIdeas st articles) := by
  constructor
  · intro hm
    have heq : titleIdeas a = [(a.title, a.link)] := by
      unfold titleIdeas
      rw [if_pos hm]
    refine ⟨heq, ?_⟩
    unfold genIdeas
    refine List.mem_flatMap.mpr ⟨a, ha, ?_⟩
    refine List.mem_append_left _ ?_
    rw [heq]
    exact List.mem_singleton.mpr rfl
  · intro hm
    have heq : titleIdeas a = [("How to " ++ a.title, a.link),
        ("The Ultimate Guide to " ++ a.title, a.link)] := by
      unfold titleIdeas
      rw [if_neg (by rw [hm]; exact Bool.false_ne_true)]
    refine ⟨heq, ?_⟩
    unfold genIdeas
    refine List.mem_flatMap.mpr ⟨a, ha, ?_⟩
    refine List.mem_append_left _ ?_
    rw [heq]
    exact List.mem_cons_self _ _

/-- Witness for C1: the spec example "5 Ways to Improve Your SEO"
matches the list starter "Ways to" and is kept verbatim; a plain title
gets the two prefix rewrites. -/
theorem claim_C1_witness :
    (titleIdeas sampleArticleMatch = [("5 Ways to Improve Your SEO", "lnkM")] ∧
      ("5 Ways to Improve Your SEO", "lnkM") ∈
        genIdeas (fun _ => []) [sampleArticleMatch, sampleArticlePlain]) ∧
    (titleIdeas sampleArticlePlain =
        [("How to Local SEO Checklist", "lnkP"),
         ("The Ultimate Guide to Local SEO Checklist", "lnkP")] ∧
      ("How to Local SEO Checklist", "lnkP") ∈
        genIdeas (fun _ => []) [sampleArticleMatch, sampleArticlePlain]) := by
  constructor
  · exact (claim_C1 (fun _ => []) [sampleArticleMatch, sampleArticlePlain]
      sampleArticleMatch (by decide)).1 (by decide)
  · exact (claim_C1 (fun _ => []) [sampleArticleMatch, sampleArticlePlain]
      sampleArticlePlain (by decide)).2 (by decide)

/-- C2: deduplication keeps each distinct idea text exactly once
(no duplicate texts, and no text is lost), pairs it with the link of
its first occurrence in generation order, and stores as its frequency
the number of occurrences of that text in the pre-dedup sequence. -/
theorem claim_C2 (ideas : List (String × String)) :
    ((uniqueOrdered ideas).map (fun x => x.1)).Nodup ∧
    (∀ t, t ∈ (uniqueOrdered ideas).map (fun x => x.1) ↔
      t ∈ ideas.map Prod.fst) ∧
    (∀ x ∈ uniqueOrdered ideas,
      ideas.find? (fun p => p.1 == x.1) = some (x.1, x.2.1) ∧
      x.2.2 = ideaCount ideas x.1) := by
  refine ⟨dedupLoop_fst_nodup ideas ideas [], ?_, ?_⟩
  · intro t
    unfold uniqueOrdered
    rw [dedupLoop_fst_complete ideas ideas [] t]
    simp
  · intro x hx
    exact (dedupLoop_mem_spec ideas ideas [] x hx).2

/-- Witness for C2: the duplicated idea keeps its first link and gets
frequency 2. -/
theorem claim_C2_witness :
    ((uniqueOrdered sampleIdeas).map (fun x => x.1)).Nodup ∧
    sampleIdeas.find? (fun p => p.1 == "How to Boost Organic Traffic") =
      some ("How to Boost Organic Traffic", "lnkA") ∧
    (2 : Nat) = ideaCount sampleIdeas "How to Boost Organic Traffic" := by
  refine ⟨(claim_C2 sampleIdeas).1, ?_, ?_⟩
  · exact ((claim_C2 sampleIdeas).2.2
      ("How to Boost Organic Traffic", "lnkA", 2) (by decide)).1
  · exact ((claim_C2 sampleIdeas).2.2
      ("How to Boost Organic Traffic", "lnkA", 2) (by decide)).2

/-- C3: the deduplicated idea sequence is sorted by frequency
descending, ties keep first-occurrence order (stability over
`uniqueOrdered`, which is in first-occurrence order), the output has at
most `NUM_SUGGESTIONS` entries, and empty input yields empty output. -/
theorem claim_C3 (ideas : List (String × String)) :
    (suggestFromIdeas ideas).length ≤ NUM_SUGGESTIONS ∧
    List.Sorted countRel (rankedIdeas ideas) ∧
    (rankedIdeas ideas).Perm (uniqueOrdered ideas) ∧
    (∀ x y : String × String × Nat, [x, y].Sublist (uniqueOrdered ideas) →
      x.2.2 = y.2.2 → [x, y].Sublist (rankedIdeas ideas)) ∧
    suggestFromIdeas [] = [] := by
  refine ⟨?_, ?_, ?_, ?_, rfl⟩
  · unfold suggestFromIdeas
    rw [List.length_map]
    exact List.length_take_le _ _
  · exact List.sorted_insertionSort countRel _
  · exact List.perm_insertionSort countRel _
  · intro x y hxy heq
    refine List.pair_sublist_insertionSort ?_ hxy
    unfold countRel
    omega

/-- Witness for C3: a frequency tie between two ideas keeps their
first-occurrence order in the ranked sequence. -/
theorem claim_C3_witness :
    (suggestFromIdeas tieIdeas).length ≤ NUM_SUGGESTIONS ∧
    [("Idea A", "l1", 1), ("Idea B", "l2", 1)].Sublist (rankedIdeas tieIdeas) := by
  refine ⟨(claim_C3 tieIdeas).1, ?_⟩
  exact (claim_C3 tieIdeas).2.2.2.1 ("Idea A", "l1", 1) ("Idea B", "l2", 1)
    (by decide) (by decide)

/-- C4: ranking permutes the input (drops no article), sorts it
descending primarily by score and secondarily by published timestamp
(most recent first) — `rankRel` is exactly that descending
lexicographic order — and is stable: articles with equal score and
equal timestamp keep their original relative order. -/
theorem claim_C4 (l : List Article) :
    (rankArticles l).Perm l ∧
    List.Sorted rankRel (rankArticles l) ∧
    (∀ a b : Article, [a, b].Sublist l → a.score = b.score →
      a.published = b.published → [a, b].Sublist (rankArticles l)) := by
  refine ⟨List.perm_insertionSort rankRel l, List.sorted_insertionSort rankRel l, ?_⟩
  intro a b hab hs hp
  refine List.pair_sublist_insertionSort ?_ hab
  unfold rankRel
  omega

/-- Witness for C4 at a two-article tie. -/
theorem claim_C4_witness :
    (rankArticles [artX, artY]).Perm [artX, artY] ∧
    [artX, artY].Sublist (rankArticles [artX, artY]) := by
  refine ⟨(claim_C4 [artX, artY]).1, ?_⟩
  exact (claim_C4 [artX, artY]).2.2 artX artY (by decide) (by decide) (by decide)

/-- C5: the stored score of every scored article is the cardinality of
the intersection of the article's keyword set with the reference
keyword set, and with an empty reference set the score is 0 for every
article (valid degraded mode, no error). -/
theorem claim_C5 (stop ref : Finset String) (now : Int) (e : Entry) :
    (scoreEntry stop ref now e).score =
      ((scoreEntry stop ref now e).keywords.toFinset ∩ ref).card ∧
    (scoreEntry stop ∅ now e).score = 0 := by
  constructor
  · rfl
  · show ((((cleanText (e.title ++ " " ++ e.summaryOpt.getD "")).filter
      (fun w => w ∉ stop)).toFinset ∩ (∅ : Finset String)).card) = 0
    rw [Finset.inter_empty, Finset.card_empty]

/-- Counterexample to C6 as stated: with processing time 10, the entry
whose date fails to parse gets `published = 10`, has the same score as
the entry parsed at time 5, yet ranking places it FIRST (the other
article is last), not at the bottom among equal scores: substituting
the current time makes it look freshly published, and the sort is
most-recent-first. -/
theorem claim_C6_counterexample :
    (scoreEntry ∅ ∅ 10 entryBadDate).published = 10 ∧
    (scoreEntry ∅ ∅ 10 entryBadDate).score =
      (scoreEntry ∅ ∅ 10 entryParsedOld).score ∧
    scoreEntry ∅ ∅ 10 entryBadDate ≠ scoreEntry ∅ ∅ 10 entryParsedOld ∧
    fetchAndScoreArticles ∅ ∅ 10 [entryParsedOld, entryBadDate] =
      [scoreEntry ∅ ∅ 10 entryBadDate, scoreEntry ∅ ∅ 10 entryParsedOld] := by
  decide

/-- C6 (amended): when an entry's publish timestamp fails to parse the
current processing time is substituted as its published timestamp, and
the article still participates in ranking; among articles of equal
score it is placed at the top — before any equal-score article whose
parsed timestamp is earlier than the processing time — since it
appears freshly published. -/
theorem claim_C6 (stop ref : Finset String) (now t : Int) (e1 e2 : Entry)
    (h1 : e1.publishedParsed = some t) (h2 : e2.publishedParsed = none)
    (hlt : t < now) :
    (scoreEntry stop ref now e2).published = now ∧
    ((scoreEntry stop ref now e1).score = (scoreEntry stop ref now e2).score →
      rankArticles [scoreEntry stop ref now e1, scoreEntry stop ref now e2] =
        [scoreEntry stop ref now e2, scoreEntry stop ref now e1]) := by
  have hpub2 : (scoreEntry stop ref now e2).published = now := by
    unfold scoreEntry
    rw [h2]
    rfl
  have hpub1 : (scoreEntry stop ref now e1).published = t := by
    unfold scoreEntry
    rw [h1]
    rfl
  refine ⟨hpub2, ?_⟩
  intro hscore
  refine rankArticles_pair _ _ ?_
  unfold rankRel
  rw [hpub1, hpub2, hscore]
  omega

/-- Witness for C6 (amended) at the concrete entries. -/
theorem claim_C6_witness :
    (scoreEntry ∅ ∅ 10 entryBadDate).published = 10 ∧
    rankArticles [scoreEntry ∅ ∅ 10 entryParsedOld, scoreEntry ∅ ∅ 10 entryBadDate] =
      [scoreEntry ∅ ∅ 10 entryBadDate, scoreEntry ∅ ∅ 10 entryParsedOld] := by
  refine ⟨(claim_C6 ∅ ∅ 10 5 entryParsedOld entryBadDate rfl rfl (by decide)).1, ?_⟩
  exact (claim_C6 ∅ ∅ 10 5 entryParsedOld entryBadDate rfl rfl (by decide)).2 (by decide)

/-- C7: summary-based idea generation examines at most the first two
sentences (it depends only on them), and a sentence among those
produces an idea exactly when its word count is strictly between 8 and
20 — the filter/map characterization; the boundary: an 8-word sentence
is excluded, a 9-word one included; the idea is the question-template
rewrite `mkSentIdea` (first letter lower-cased when upper-case) tied
to the article's link. -/
theorem claim_C7 (st st' : String → List String) (a : Article) :
    summaryIdeas st a =
      (((st a.summary).take 2).filter sentGood).map
        (fun s => (mkSentIdea s, a.link)) ∧
    ((st a.summary).take 2 = (st' a.summary).take 2 →
      summaryIdeas st a = summaryIdeas st' a) ∧
    sentGood eightWordSent = false ∧
    sentGood nineWordSent = true ∧
    mkSentIdea "Content wins online" =
      "Why is content wins online important for your business?" := by
  refine ⟨summaryIdeasLoop_eq a.link _, ?_, by decide, by decide, by decide⟩
  intro h
  unfold summaryIdeas
  rw [h]

/-- Witness for C7: two tokenizers agreeing on the first two sentences
produce the same summary ideas. -/
theorem claim_C7_witness :
    summaryIdeas (fun _ => ["First sentence here", "Second sentence here", "Third"])
        sampleArticlePlain =
      summaryIdeas (fun _ => ["First sentence here", "Second sentence here", "Other"])
        sampleArticlePlain :=
  (claim_C7 (fun _ => ["First sentence here", "Second sentence here", "Third"])
    (fun _ => ["First sentence here", "Second sentence here", "Other"])
    sampleArticlePlain).2.1 (by decide)

/-- C8: every token the normalizer returns is lowercase, consists only
of (ASCII) alphabetic characters, and has length at least 3; empty
input yields the empty sequence. -/
theorem claim_C8 :
    (∀ s t, t ∈ cleanText s → isCleanToken t = true) ∧
    cleanText "" = [] := by
  refine ⟨?_, rfl⟩
  intro s t ht
  exact cleanText_token_clean s t ht

/-- Witness for C8 at a concrete text. -/
theorem claim_C8_witness : isCleanToken "seo" = true :=
  claim_C8.1 "SEO tips!" "seo" (by decide)

/-- C9: the normalizer never keeps a partial fragment of a word —
every returned token is one entire maximal word-character run of the
lower-cased text, flanked on both sides by a word boundary (start or
end of text, or a non-word character); so a word containing a digit,
an underscore or fewer than 3 letters contributes nothing, not even a
fragment (together with C8, which rules the whole bad word itself
out). -/
theorem claim_C9 (s t : String) (ht : t ∈ cleanText s) :
    t.data ≠ [] ∧ t.data.all isWordChar = true ∧
    ∃ pre post, pyLower s.data = pre ++ t.data ++ post ∧
      (∀ d, pre.getLast? = some d → isWordChar d = false) ∧
      (∀ d, post.head? = some d → isWordChar d = false) :=
  cleanText_token_maximal s t ht

/-- Witness for C9: "state" is a whole hyphen-delimited word of
"state-of-the-art". -/
theorem claim_C9_witness :
    ("state" : String).data ≠ [] ∧
    ("state" : String).data.all isWordChar = true ∧
    ∃ pre post,
      pyLower ("state-of-the-art" : String).data =
        pre ++ ("state" : String).data ++ post ∧
      (∀ d, pre.getLast? = some d → isWordChar d = false) ∧
      (∀ d, post.head? = some d → isWordChar d = false) :=
  claim_C9 "state-of-the-art" "state" (by decide)

/-- C10: every keyword stored on a scored article is a lowercase
alphabetic token of length at least 3 that is not in the stopword set,
and consequently every keyword in the trend output satisfies the same
predicate — no stopword ever appears as a trending keyword. -/
theorem claim_C10 (stop ref : Finset String) (now : Int)
    (entries : List Entry) :
    (∀ a ∈ entries.map (scoreEntry stop ref now), ∀ kw ∈ a.keywords,
      isCleanToken kw = true ∧ kw ∉ stop) ∧
    (∀ p ∈ trendingKeywords (fetchAndScoreArticles stop ref now entries),
      isCleanToken p.1 = true ∧ p.1 ∉ stop) := by
  have hart : ∀ a ∈ entries.map (scoreEntry stop ref now), ∀ kw ∈ a.keywords,
      isCleanToken kw = true ∧ kw ∉ stop := by
    intro a ha kw hkw
    obtain ⟨e, _, hea⟩ := List.mem_map.mp ha
    subst hea
    exact scoreEntry_keywords_good stop ref now e kw hkw
  refine ⟨hart, ?_⟩
  intro p hp
  unfold trendingKeywords at hp
  have hmem := mostCommon_fst_mem 20 _ p hp
  obtain ⟨a, ha, hkw⟩ := List.mem_flatMap.mp hmem
  have ha' : a ∈ fetchAndScoreArticles stop ref now entries :=
    (List.take_sublist _ _).subset ha
  unfold fetchAndScoreArticles rankArticles at ha'
  rw [List.mem_insertionSort] at ha'
  exact hart a ha' p.1 hkw

/-- Witness for C10: the keyword "seo" of the sample entry is a clean
token outside the stopword set, and so is the trending keyword
"seo". -/
theorem claim_C10_witness :
    (isCleanToken "seo" = true ∧ "seo" ∉ sampleStop) ∧
    (isCleanToken (("seo", 1) : String × Nat).1 = true ∧
      (("seo", 1) : String × Nat).1 ∉ sampleStop) := by
  constructor
  · exact (claim_C10 sampleStop ∅ 0 [sampleEntry]).1
      (scoreEntry sampleStop ∅ 0 sampleEntry) (by decide) "seo" (by decide)
  · exact (claim_C10 sampleStop ∅ 0 [sampleEntry]).2 ("seo", 1) (by decide)

end SeoGen
